import Mathlib

/-!
Verification of the figma-docs change-detection and documentation pipeline.

Shallow embedding of the core of `src/backend/app/services/figma/figma_service.py`,
`src/backend/app/services/figma/change_detector.py` and
`src/backend/app/services/docs/doc_generator.py`.

Modelling conventions:
* `datetime` timestamps become `Nat` (only their ordering matters);
  `datetime.now()` becomes an explicit `now : Nat` parameter.
* a network fetch becomes an explicit `Except Unit (String × Nat)` value:
  `.ok (version, lastModified)` for a successful metadata request,
  `.error ()` for any raised exception.
* Python `Optional[str]` truthiness (`None` and `""` are falsy) is modelled
  explicitly by `truthyStr`; `datetime` objects are always truthy, so the
  truthiness of an `Optional[datetime]` is `Option.isSome`.
* Python strings are modelled as `List Char` where character-level reasoning
  is needed (the markdown section parser and the filename slug); Unicode
  classification functions (`str.isalnum`, `str.lower`) are modelled by their
  ASCII behaviour (`Char.isAlphanum`, `Char.toLower`), which agrees with
  Python on every ASCII string.
* nondeterministic UUID ids (`str(uuid.uuid4())`) and fields that the
  modelled code never writes (`DocSection.parent_id`, `figma_node_id`,
  `doc_type`, `FileChangeEvent.changes_detected`) are omitted.
-/

namespace FigmaDocs

/-- Model of `WatchedFile` (src/backend/app/models/figma_models.py, lines 72-79). -/
structure WatchedFile where
  file_key : String
  name : String
  last_version : Option String := none
  last_modified : Option Nat := none
  last_checked : Option Nat := none
  doc_generated : Bool := false
deriving Repr, DecidableEq

/-- Model of `FileChangeEvent` (src/backend/app/models/figma_models.py, lines 82-89). -/
structure FileChangeEvent where
  file_key : String
  file_name : String
  old_version : Option String := none
  new_version : String
  changed_at : Nat
deriving Repr, DecidableEq

/-- Python truthiness of an `Optional[str]`: `None` and `""` are falsy. -/
def truthyStr : Option String → Bool
  | none => false
  | some s => !(s == "")

/-- Result of the metadata request issued by `check_file_changed`:
`.ok (version, lastModified)` on success, `.error ()` when the request
(or response parsing) raises. -/
abbrev FetchResult := Except Unit (String × Nat)

/-- Model of `FigmaService.check_file_changed`
(src/backend/app/services/figma/figma_service.py, lines 441-483).
The whole body is wrapped in `try/except`; on any exception the function
returns `(False, None, None)`.  On success it evaluates the `if`/`elif`
chain on the fetched `(current_version, current_modified)` pair and returns
`(has_changed, current_version, current_modified)`.  The Python conditions
`last_known_version and ...` / `last_known_modified and ...` use truthiness:
an empty stored version string behaves like `None`, while a stored
`datetime` is always truthy. -/
def check_file_changed (fetch : FetchResult)
    (last_known_version : Option String) (last_known_modified : Option Nat) :
    Bool × Option String × Option Nat :=
  match fetch with
  | .error _ => (false, none, none)
  | .ok (current_version, current_modified) =>
    let has_changed :=
      if truthyStr last_known_version && !(current_version == last_known_version.getD "") then
        true
      else if last_known_modified.isSome
          && decide (last_known_modified.getD 0 < current_modified) then
        true
      else if !truthyStr last_known_version && !last_known_modified.isSome then
        true
      else
        false
    (has_changed, some current_version, some current_modified)

/-- The per-file body of `FigmaChangeDetector.check_file`
(src/backend/app/services/figma/change_detector.py, lines 113-148), acting on
one `WatchedFile`: call `check_file_changed` with the stored state, set
`last_checked`, and if `has_changed and new_version` (truthiness again)
build the event from the pre-update stored version, then update
`last_version`/`last_modified`.  Callback notification performs no state
change on the watched file and is omitted. -/
def check_file_update (fetch_result : FetchResult) (now : Nat)
    (watched : WatchedFile) : Option FileChangeEvent × WatchedFile :=
  let res := check_file_changed fetch_result watched.last_version watched.last_modified
  let has_changed := res.1
  let new_version := res.2.1
  let new_modified := res.2.2
  let checked := { watched with last_checked := some now }
  if has_changed && truthyStr new_version then
    let event : FileChangeEvent :=
      { file_key := watched.file_key
        file_name := watched.name
        old_version := watched.last_version
        new_version := new_version.getD ""
        changed_at := new_modified.getD now }
    (some event,
      { checked with last_version := new_version, last_modified := new_modified })
  else
    (none, checked)

/-- The change decision exactly as claim C1 words it: stored version exists
(`isSome`) and differs → changed; else stored timestamp exists and current is
strictly greater → changed; else neither exists → changed; else unchanged. -/
def claimDecision (last_known_version : Option String) (last_known_modified : Option Nat)
    (current_version : String) (current_modified : Nat) : Bool :=
  if last_known_version.isSome && !(current_version == last_known_version.getD "") then
    true
  else if last_known_modified.isSome
      && decide (last_known_modified.getD 0 < current_modified) then
    true
  else if !last_known_version.isSome && !last_known_modified.isSome then
    true
  else
    false

/-- The stored `last_version` is never the empty string: `check_file` only
writes it under the guard `has_changed and new_version`, whose truthiness
excludes `""` (and `initialize` uses the same `if version:` guard). -/
theorem check_file_update_version_ne_empty (fetch : FetchResult) (now : Nat)
    (w : WatchedFile) (h : w.last_version ≠ some "") :
    ((check_file_update fetch now w).2).last_version ≠ some "" := by
  unfold check_file_update
  rcases fetch with _ | ⟨cv, cm⟩
  · simpa [check_file_changed] using h
  · by_cases hch :
      (check_file_changed (.ok (cv, cm)) w.last_version w.last_modified).1
        && truthyStr (check_file_changed (.ok (cv, cm)) w.last_version w.last_modified).2.1
    · simp only [hch, if_true]
      have : truthyStr (some cv) = true := by
        simpa [check_file_changed] using (Bool.and_elim_right hch)
      simp only [check_file_changed]
      simp [truthyStr] at this ⊢
      simpa using this
    · simp only [hch, if_false]
      simpa using h

/-- Claim C1: on a successful metadata fetch, `check_file_changed` evaluates
the change decision in exactly the claimed precedence order (stored version
differs, else stored timestamp strictly advanced, else first-ever check,
else unchanged).  The hypothesis `last_known_version ≠ some ""` restricts to
the stored states the system actually produces (see
`check_file_update_version_ne_empty`); for the unreachable stored value
`some ""` Python truthiness would treat the version as absent. -/
theorem claim_C1_decision_order (lv : Option String) (lm : Option Nat)
    (cv : String) (cm : Nat) (h : lv ≠ some "") :
    (check_file_changed (.ok (cv, cm)) lv lm).1 = claimDecision lv lm cv cm := by
  cases lv with
  | none => simp [check_file_changed, claimDecision, truthyStr]
  | some s =>
    have hs : s ≠ "" := by simpa using h
    simp [check_file_changed, claimDecision, truthyStr, hs]

theorem claim_C1_decision_order_witness :
    (some "5" : Option String) ≠ some "" ∧
      (check_file_changed (.ok ("6", 7)) (some "5") (some 3)).1
        = claimDecision (some "5") (some 3) "6" 7 :=
  ⟨by decide, claim_C1_decision_order (some "5") (some 3) "6" 7 (by decide)⟩

/-- Claim C2: first-ever check (no stored version, no stored timestamp) on a
successful fetch that returns a non-empty version string always yields a
change event with `old_version = None`.  (On a fetch error, or if the API
response lacked a `version` field so that `data.get("version", "")` gave
`""`, the guard `has_changed and new_version` would suppress the event; both
are outside the claimed successful-fetch scenario.) -/
theorem claim_C2_first_check_event (w : WatchedFile) (cv : String) (cm now : Nat)
    (hv : w.last_version = none) (hm : w.last_modified = none) (hne : cv ≠ "") :
    (check_file_update (.ok (cv, cm)) now w).1
      = some { file_key := w.file_key, file_name := w.name, old_version := none
               new_version := cv, changed_at := cm } := by
  simp [check_file_update, check_file_changed, truthyStr, hv, hm, hne]

theorem claim_C2_first_check_event_witness :
    ({ file_key := "k", name := "n" } : WatchedFile).last_version = none ∧
      (check_file_update (.ok ("1", 5)) 9 { file_key := "k", name := "n" }).1
        = some { file_key := "k", file_name := "n", old_version := none
                 new_version := "1", changed_at := 5 } :=
  ⟨rfl, claim_C2_first_check_event { file_key := "k", name := "n" } "1" 5 9
    rfl rfl (by decide)⟩

/-- Claim C3: stored version `"5"`, fetch returns `"6"`: the event captures
the pre-update stored version (`old_version = "5"`, `new_version = "6"`) and
afterwards the stored `last_version` is `"6"`. -/
theorem claim_C3_version_transition (w : WatchedFile) (cm now : Nat)
    (h : w.last_version = some "5") :
    (check_file_update (.ok ("6", cm)) now w).1
      = some { file_key := w.file_key, file_name := w.name, old_version := some "5"
               new_version := "6", changed_at := cm } ∧
    ((check_file_update (.ok ("6", cm)) now w).2).last_version = some "6" := by
  constructor <;> simp [check_file_update, check_file_changed, truthyStr, h]

theorem claim_C3_version_transition_witness :
    ({ file_key := "k", name := "n", last_version := some "5" } : WatchedFile).last_version
        = some "5" ∧
      (check_file_update (.ok ("6", 3)) 4
          { file_key := "k", name := "n", last_version := some "5" }).1
        = some { file_key := "k", file_name := "n", old_version := some "5"
                 new_version := "6", changed_at := 3 } :=
  ⟨rfl, (claim_C3_version_transition
    { file_key := "k", name := "n", last_version := some "5" } 3 4 rfl).1⟩

/-- Counterexample to claim C4 as stated: with stored `last_version = "5"`
and stored `last_modified = 0`, a fetch returning version `"5"` but a
strictly newer timestamp `1` makes the `elif last_known_modified and
current_modified > last_known_modified` branch fire, so `check_file` does
return an event even though the version is unchanged. -/
theorem claim_C4_counterexample :
    (check_file_update (.ok ("5", 1)) 2
        { file_key := "k", name := "n", last_version := some "5"
          last_modified := some 0 }).1 ≠ none := by
  decide

/-- Claim C4 (amended): with stored `last_version = "5"`, a fetch returning
version `"5"` whose modified timestamp is not strictly newer than the stored
one (when a timestamp is stored) yields no event, and the only field of the
`WatchedFile` that changes is `last_checked`, which is set to the check
time. -/
theorem claim_C4_unchanged_frame (w : WatchedFile) (cm now : Nat)
    (hv : w.last_version = some "5")
    (hm : ∀ t, w.last_modified = some t → cm ≤ t) :
    check_file_update (.ok ("5", cm)) now w
      = (none, { w with last_checked := some now }) := by
  cases hlm : w.last_modified with
  | none => simp [check_file_update, check_file_changed, truthyStr, hv, hlm]
  | some t =>
    have ht : ¬ t < cm := Nat.not_lt.mpr (hm t hlm)
    simp [check_file_update, check_file_changed, truthyStr, hv, hlm, ht]

theorem claim_C4_unchanged_frame_witness :
    ({ file_key := "k", name := "n", last_version := some "5"
       last_modified := some 7 } : WatchedFile).last_version = some "5" ∧
      check_file_update (.ok ("5", 6)) 9
          { file_key := "k", name := "n", last_version := some "5"
            last_modified := some 7 }
        = (none, { file_key := "k", name := "n", last_version := some "5"
                   last_modified := some 7, last_checked := some 9 }) :=
  ⟨rfl, claim_C4_unchanged_frame
    { file_key := "k", name := "n", last_version := some "5", last_modified := some 7 }
    6 9 rfl (by intro t ht; cases ht; decide)⟩

/-! ## The Watch Registry

`FigmaChangeDetector._watched_files` is a Python `dict[str, WatchedFile]`.
Association lists with no duplicate keys model it: `dictSet` is `d[k] = v`
(in-place overwrite keeps the entry's position, a new key is appended at the
end, matching insertion order), `dictDel` is `del d[k]`, `dictGet` is
`d.get(k)`, `dictKeys` the key view. -/

def dictSet {α : Type} : List (String × α) → String → α → List (String × α)
  | [], k, v => [(k, v)]
  | (k', v') :: rest, k, v =>
    if k' = k then (k, v) :: rest else (k', v') :: dictSet rest k v

def dictGet {α : Type} : List (String × α) → String → Option α
  | [], _ => none
  | (k', v') :: rest, k => if k' = k then some v' else dictGet rest k

def dictDel {α : Type} (d : List (String × α)) (k : String) : List (String × α) :=
  d.filter (fun p => p.1 != k)

def dictKeys {α : Type} (d : List (String × α)) : List String := d.map Prod.fst

theorem dictGet_dictSet_self {α : Type} (d : List (String × α)) (k : String) (v : α) :
    dictGet (dictSet d k v) k = some v := by
  induction d with
  | nil => simp [dictSet, dictGet]
  | cons p rest ih =>
    obtain ⟨k', v'⟩ := p
    by_cases h : k' = k
    · simp [dictSet, dictGet, h]
    · simp [dictSet, dictGet, h, ih]

theorem dictGet_dictSet_other {α : Type} (d : List (String × α)) (k k' : String) (v : α)
    (h : k' ≠ k) : dictGet (dictSet d k v) k' = dictGet d k' := by
  induction d with
  | nil => simp [dictSet, dictGet, Ne.symm h]
  | cons p rest ih =>
    obtain ⟨k₀, v₀⟩ := p
    by_cases h₀ : k₀ = k
    · subst h₀
      simp [dictSet, dictGet, Ne.symm h]
    · simp [dictSet, dictGet, h₀, ih]

theorem mem_dictKeys_dictSet {α : Type} (d : List (String × α)) (k k' : String) (v : α) :
    k' ∈ dictKeys (dictSet d k v) ↔ k' = k ∨ k' ∈ dictKeys d := by
  induction d with
  | nil => simp [dictSet, dictKeys]
  | cons p rest ih =>
    obtain ⟨k₀, v₀⟩ := p
    by_cases h₀ : k₀ = k
    · subst h₀
      have hset : dictSet ((k₀, v₀) :: rest) k₀ v = (k₀, v) :: rest := by
        simp [dictSet]
      rw [hset]
      simp only [dictKeys, List.map_cons, List.mem_cons]
      tauto
    · have hset : dictSet ((k₀, v₀) :: rest) k v = (k₀, v₀) :: dictSet rest k v := by
        simp [dictSet, h₀]
      rw [hset]
      simp only [dictKeys, List.map_cons, List.mem_cons] at ih ⊢
      tauto

theorem mem_dictKeys_dictDel {α : Type} (d : List (String × α)) (k k' : String) :
    k' ∈ dictKeys (dictDel d k) ↔ k' ≠ k ∧ k' ∈ dictKeys d := by
  simp only [dictKeys, dictDel, List.mem_map, List.mem_filter]
  constructor
  · rintro ⟨p, ⟨hp, hpk⟩, rfl⟩
    exact ⟨by simpa using hpk, p, hp, rfl⟩
  · rintro ⟨hne, p, hp, rfl⟩
    exact ⟨p, ⟨hp, by simpa using hne⟩, rfl⟩

theorem dictGet_eq_none_iff {α : Type} (d : List (String × α)) (k : String) :
    dictGet d k = none ↔ k ∉ dictKeys d := by
  induction d with
  | nil => simp [dictGet, dictKeys]
  | cons p rest ih =>
    obtain ⟨k₀, v₀⟩ := p
    by_cases h₀ : k₀ = k
    · subst h₀
      simp [dictGet, dictKeys]
    · simp only [dictGet, if_neg h₀, dictKeys, List.map_cons, List.mem_cons] at ih ⊢
      rw [ih]
      constructor
      · rintro hn (rfl | hm)
        · exact h₀ rfl
        · exact hn hm
      · intro hn hm
        exact hn (Or.inr hm)

/-- The in-memory registry owned by `FigmaChangeDetector`. -/
abbrev Registry := List (String × WatchedFile)

/-- Model of `FigmaChangeDetector.add_watched_file`
(src/backend/app/services/figma/change_detector.py, lines 40-53): build a
fresh `WatchedFile` (all tracking fields at their defaults) and store it
under its key, silently overwriting any existing entry. -/
def add_watched_file (st : Registry) (file_key name : String) : Registry :=
  dictSet st file_key { file_key := file_key, name := name }

/-- Model of `FigmaChangeDetector.remove_watched_file` (lines 55-68): delete the entry
if present and report whether it existed. -/
def remove_watched_file (st : Registry) (file_key : String) : Bool × Registry :=
  if file_key ∈ dictKeys st then (true, dictDel st file_key) else (false, st)

/-- Model of `FigmaChangeDetector.get_watched_files` (lines 70-76):
`list(self._watched_files.values())`. -/
def get_watched_files (st : Registry) : List WatchedFile := st.map Prod.snd

/-- One call against the registry API, for claim C8's sequences. -/
inductive RegistryOp where
  | add (file_key name : String)
  | remove (file_key : String)

def applyOp (st : Registry) : RegistryOp → Registry
  | .add k n => add_watched_file st k n
  | .remove k => (remove_watched_file st k).2

def runOps (ops : List RegistryOp) : Registry := ops.foldl applyOp []

/-- Claim-side bookkeeping for C8: after the whole sequence, is `k` a key
that was added and not subsequently removed?  (The last `add`/`remove`
touching `k` wins; initially `k` is absent.) -/
def addedNotRemovedStep (k : String) (b : Bool) : RegistryOp → Bool
  | .add k' _ => if k' = k then true else b
  | .remove k' => if k' = k then false else b

def addedNotRemoved (ops : List RegistryOp) (k : String) : Bool :=
  ops.foldl (addedNotRemovedStep k) false

theorem mem_dictKeys_foldl_applyOp (ops : List RegistryOp) :
    ∀ (st : Registry) (k : String) (b : Bool),
      (k ∈ dictKeys st ↔ b = true) →
      (k ∈ dictKeys (ops.foldl applyOp st) ↔ ops.foldl (addedNotRemovedStep k) b = true) := by
  induction ops with
  | nil => intro st k b h; simpa using h
  | cons op rest ih =>
    intro st k b h
    rw [List.foldl_cons, List.foldl_cons]
    apply ih
    cases op with
    | add k' n =>
      by_cases hk : k' = k
      · subst hk
        simp [applyOp, add_watched_file, addedNotRemovedStep, mem_dictKeys_dictSet]
      · simp only [applyOp, add_watched_file, addedNotRemovedStep,
          mem_dictKeys_dictSet, if_neg hk]
        constructor
        · rintro (rfl | hmem)
          · exact absurd rfl hk
          · exact h.mp hmem
        · intro hb; exact Or.inr (h.mpr hb)
    | remove k' =>
      by_cases hmem : k' ∈ dictKeys st
      · by_cases hk : k' = k
        · subst hk
          simp [applyOp, remove_watched_file, addedNotRemovedStep, hmem,
            mem_dictKeys_dictDel]
        · simp only [applyOp, remove_watched_file, if_pos hmem,
            addedNotRemovedStep, if_neg hk, mem_dictKeys_dictDel]
          constructor
          · rintro ⟨_, hm⟩; exact h.mp hm
          · intro hb; exact ⟨fun hh => hk hh.symm, h.mpr hb⟩
      · by_cases hk : k' = k
        · subst hk
          simp only [applyOp, remove_watched_file, if_neg hmem, addedNotRemovedStep,
            if_pos rfl]
          constructor
          · intro hm; exact absurd hm hmem
          · intro hb; exact absurd hb (by simp)
        · simpa [applyOp, remove_watched_file, if_neg hmem, addedNotRemovedStep,
            if_neg hk] using h

/-- Entries are stored under their own `file_key`. -/
def goodKeys (st : Registry) : Prop := ∀ p ∈ st, p.2.file_key = p.1

theorem mem_dictSet {α : Type} (d : List (String × α)) (k : String) (v : α)
    (p : String × α) (hp : p ∈ dictSet d k v) : p = (k, v) ∨ p ∈ d := by
  induction d with
  | nil => simpa [dictSet] using hp
  | cons q rest ih =>
    obtain ⟨k₀, v₀⟩ := q
    by_cases h₀ : k₀ = k
    · simp [dictSet, h₀] at hp
      rcases hp with rfl | hp
      · exact Or.inl rfl
      · exact Or.inr (List.mem_cons_of_mem _ hp)
    · simp only [dictSet, if_neg h₀, List.mem_cons] at hp
      rcases hp with rfl | hp
      · exact Or.inr (List.mem_cons_self _ _)
      · rcases ih hp with h | h
        · exact Or.inl h
        · exact Or.inr (List.mem_cons_of_mem _ h)

theorem goodKeys_applyOp (st : Registry) (op : RegistryOp) (h : goodKeys st) :
    goodKeys (applyOp st op) := by
  cases op with
  | add k n =>
    intro p hp
    rcases mem_dictSet st k _ p hp with rfl | hp
    · rfl
    · exact h p hp
  | remove k =>
    intro p hp
    simp only [applyOp, remove_watched_file] at hp
    by_cases hmem : k ∈ dictKeys st
    · rw [if_pos hmem] at hp
      exact h p (List.mem_of_mem_filter hp)
    · rw [if_neg hmem] at hp
      exact h p hp

theorem goodKeys_runOps (ops : List RegistryOp) : goodKeys (runOps ops) := by
  have : ∀ (l : List RegistryOp) (st : Registry), goodKeys st →
      goodKeys (l.foldl applyOp st) := by
    intro l
    induction l with
    | nil => intro st h; exact h
    | cons op rest ih => intro st h; exact ih _ (goodKeys_applyOp st op h)
  exact this ops [] (by intro p hp; simp at hp)

theorem map_file_key_get_watched_files (st : Registry) (h : goodKeys st) :
    (get_watched_files st).map WatchedFile.file_key = dictKeys st := by
  unfold get_watched_files dictKeys
  rw [List.map_map]
  exact List.map_congr_left (fun p hp => h p hp)

/-- Claim C8: for every sequence of `add_watched_file`/`remove_watched_file`
calls starting from the empty registry, the `file_key`s of the entries
returned by `get_watched_files` are exactly the keys added and not
subsequently removed; and re-adding an existing key is a total operation
that resets the entry to the freshly-constructed state (all tracking fields
`None`, `doc_generated = False`). -/
theorem claim_C8_registry_net_effect :
    (∀ (ops : List RegistryOp) (k : String),
      k ∈ (get_watched_files (runOps ops)).map WatchedFile.file_key
        ↔ addedNotRemoved ops k = true)
    ∧ (∀ (st : Registry) (k n : String),
      dictGet (add_watched_file st k n) k
        = some { file_key := k, name := n, last_version := none, last_modified := none
                 last_checked := none, doc_generated := false }) := by
  constructor
  · intro ops k
    rw [map_file_key_get_watched_files _ (goodKeys_runOps ops)]
    exact mem_dictKeys_foldl_applyOp ops [] k false (by simp [dictKeys])
  · intro st k n
    exact dictGet_dictSet_self st k _

/-! ## Batch checking (claim C9) -/

/-- Model of `FigmaChangeDetector.check_file` (change_detector.py, lines 100-148) as a
registry transformer: an unwatched key is a no-op returning `None`;
otherwise the per-file update runs on that entry.  `fetch` gives each file's
metadata-request outcome; a raised exception is `.error ()` (already caught
inside `check_file_changed`, which then reports "no change"). -/
def check_file (fetch : String → FetchResult) (now : Nat)
    (st : Registry) (file_key : String) : Option FileChangeEvent × Registry :=
  match dictGet st file_key with
  | none => (none, st)
  | some watched =>
    let res := check_file_update (fetch file_key) now watched
    (res.1, dictSet st file_key res.2)

/-- Model of `FigmaChangeDetector.check_all_files` (lines 150-163): check every
watched key in order, collecting the events of the files that changed. -/
def check_all_files (fetch : String → FetchResult) (now : Nat)
    (st : Registry) : List FileChangeEvent × Registry :=
  (dictKeys st).foldl
    (fun acc k =>
      let res := check_file fetch now acc.2 k
      (acc.1 ++ res.1.toList, res.2))
    ([], st)

theorem check_file_error_none (fetch : String → FetchResult) (now : Nat)
    (st : Registry) (k : String) (h : fetch k = .error ()) :
    (check_file fetch now st k).1 = none := by
  unfold check_file
  cases hg : dictGet st k with
  | none => rfl
  | some w => simp [h, check_file_update, check_file_changed, truthyStr]

theorem dictGet_check_file_other (fetch : String → FetchResult) (now : Nat)
    (st : Registry) (k k' : String) (h : k' ≠ k) :
    dictGet ((check_file fetch now st k).2) k' = dictGet st k' := by
  unfold check_file
  cases hg : dictGet st k with
  | none => rfl
  | some w => exact dictGet_dictSet_other st k k' _ h

theorem check_file_fst_congr (fetch : String → FetchResult) (now : Nat)
    (st₁ st₂ : Registry) (k : String) (h : dictGet st₁ k = dictGet st₂ k) :
    (check_file fetch now st₁ k).1 = (check_file fetch now st₂ k).1 := by
  unfold check_file
  rw [h]
  cases dictGet st₂ k <;> rfl

theorem check_all_files_foldl (fetch : String → FetchResult) (now : Nat) :
    ∀ (ks : List String) (st : Registry) (es : List FileChangeEvent),
      ks.Nodup →
      (ks.foldl
        (fun acc k =>
          let res := check_file fetch now acc.2 k
          (acc.1 ++ res.1.toList, res.2))
        (es, st)).1
        = es ++ ks.filterMap (fun k => (check_file fetch now st k).1) := by
  intro ks
  induction ks with
  | nil => intro st es _; simp
  | cons k rest ih =>
    intro st es hnd
    have hk : k ∉ rest := (List.nodup_cons.mp hnd).1
    have hrest : rest.Nodup := (List.nodup_cons.mp hnd).2
    rw [List.foldl_cons]
    have hcongr : ∀ k' ∈ rest,
        (check_file fetch now ((check_file fetch now st k).2) k').1
          = (check_file fetch now st k').1 := by
      intro k' hk'
      exact check_file_fst_congr fetch now _ st k'
        (dictGet_check_file_other fetch now st k k' (fun hh => hk (hh ▸ hk')))
    rw [ih _ _ hrest]
    rw [List.filterMap_congr hcongr, List.filterMap_cons]
    cases he : (check_file fetch now st k).1 <;> simp [he]

/-- Claim C9: in a batch `check_all_files`, an exception from the API call
for one file is caught and treated as "no event" for that file, and every
other watched file is still checked: each file's event is exactly what
checking that file alone against the pre-batch registry yields, so a single
file's failure never aborts or perturbs the rest of the batch.  The key-list
of a reachable registry has no duplicates (it models a `dict` key view). -/
theorem claim_C9_batch_isolation (fetch : String → FetchResult) (now : Nat)
    (st : Registry) (hnd : (dictKeys st).Nodup) :
    (check_all_files fetch now st).1
      = (dictKeys st).filterMap (fun k => (check_file fetch now st k).1)
    ∧ ∀ k, fetch k = .error () → (check_file fetch now st k).1 = none := by
  constructor
  · simpa using check_all_files_foldl fetch now (dictKeys st) st [] hnd
  · intro k h
    exact check_file_error_none fetch now st k h

/-- Concrete two-file registry for the C9 witness; checking `"a"` raises,
checking `"b"` succeeds. -/
def fetchW : String → FetchResult :=
  fun k => if k = "a" then Except.error () else Except.ok ("1", 0)

def registryW : Registry :=
  [("a", { file_key := "a", name := "fa" }), ("b", { file_key := "b", name := "fb" })]

theorem claim_C9_batch_isolation_witness :
    (dictKeys registryW).Nodup
    ∧ ((check_all_files fetchW 7 registryW).1
        = (dictKeys registryW).filterMap (fun k => (check_file fetchW 7 registryW k).1)
       ∧ ∀ k, fetchW k = Except.error ()
          → (check_file fetchW 7 registryW k).1 = none) :=
  ⟨by decide, claim_C9_batch_isolation fetchW 7 registryW (by decide)⟩

/-! ## Markdown section parsing (claims C5, C6)

`DocGenerator._parse_markdown_sections`
(src/backend/app/services/docs/doc_generator.py, lines 317-357) works on
Python strings; here strings are `List Char`.  `splitLines` is
`str.split("\n")`, `joinLines` is `"\n".join(...)`, `pyStrip` is
`str.strip()` (whitespace set modelled by its ASCII members), and
`isHeadingLine` is `line.startswith("## ")`. -/

/-- The ASCII characters stripped by Python `str.strip()`. -/
def pyIsSpace (c : Char) : Bool :=
  c == ' ' || c == '\t' || c == '\n' || c == '\r' || c == '\x0b' || c == '\x0c'

/-- Python `str.strip()`: drop leading whitespace, then trailing whitespace. -/
def pyStrip (s : List Char) : List Char :=
  ((s.dropWhile pyIsSpace).reverse.dropWhile pyIsSpace).reverse

/-- Python `str.split("\n")`: `"".split("\n") == [""]`, and every `"\n"`
starts a new (possibly empty) piece. -/
def splitLines : List Char → List (List Char)
  | [] => [[]]
  | c :: cs =>
    if c = '\n' then [] :: splitLines cs
    else
      match splitLines cs with
      | [] => [[c]]
      | l :: ls => (c :: l) :: ls

/-- Python `"\n".join(...)`. -/
def joinLines : List (List Char) → List Char
  | [] => []
  | [l] => l
  | l :: ls => l ++ '\n' :: joinLines ls

/-- Python `line.startswith("## ")`. -/
def isHeadingLine : List Char → Bool
  | '#' :: '#' :: ' ' :: _ => true
  | _ => false

/-- Model of `DocSection` (src/backend/app/models/doc_models.py, lines 22-30),
restricted to the fields the parser writes; the random uuid `id` and the
defaulted `parent_id`/`figma_node_id`/`doc_type` are omitted. -/
structure DocSection where
  title : List Char
  content : List Char
  order : Nat
deriving Repr, DecidableEq

/-- Closing a section in the parser loop: `current_section.content =
"\n".join(current_content).strip()`. -/
def finishSection (title : List Char) (ord : Nat) (buf : List (List Char)) : DocSection :=
  { title := title, content := pyStrip (joinLines buf), order := ord }

/-- The `for line in markdown_content.split("\n")` loop of
`_parse_markdown_sections`, with its state made explicit: `cur` is the open
section's `(title, order)` (`current_section`), `buf` is `current_content`,
`ord` is `section_order`.  A heading line closes the open section (if any)
and opens a new one with `title = line[3:].strip()`; any other line is
appended to the open section's buffer and is discarded when no section is
open; at the end the open section (if any) is closed. -/
def parseLoop : List (List Char) → Option (List Char × Nat) → List (List Char) → Nat →
    List DocSection
  | [], none, _, _ => []
  | [], some (t, o), buf, _ => [finishSection t o buf]
  | line :: rest, cur, buf, ord =>
    if isHeadingLine line then
      match cur with
      | none => parseLoop rest (some (pyStrip (line.drop 3), ord)) [] (ord + 1)
      | some (t, o) =>
        finishSection t o buf :: parseLoop rest (some (pyStrip (line.drop 3), ord)) [] (ord + 1)
    else
      match cur with
      | none => parseLoop rest none buf ord
      | some c => parseLoop rest (some c) (buf ++ [line]) ord

/-- Model of `DocGenerator._parse_markdown_sections`. -/
def parse_markdown_sections (markdown : List Char) : List DocSection :=
  parseLoop (splitLines markdown) none [] 0

/-- The splitting rule as amended claim C5 words it, structured by blocks: the
first heading line starts a section; its title is the rest of the line with
surrounding whitespace stripped; its content is the text up to the next
heading line (or the end) with surrounding whitespace stripped; lines before
the first heading are discarded; consecutive sections get consecutive
orders. -/
def sectionsSpec : Nat → List (List Char) → List DocSection
  | _, [] => []
  | ord, line :: rest =>
    if isHeadingLine line then
      { title := pyStrip (line.drop 3)
        content := pyStrip (joinLines (rest.takeWhile (fun l => !isHeadingLine l)))
        order := ord }
        :: sectionsSpec (ord + 1) (rest.dropWhile (fun l => !isHeadingLine l))
    else
      sectionsSpec ord rest
termination_by _ ls => ls.length
decreasing_by
  · simp only [List.length_cons]
    exact Nat.lt_succ_of_le ((List.dropWhile_sublist _).length_le)
  · simp [List.length_cons]

theorem sectionsSpec_nil (ord : Nat) : sectionsSpec ord [] = [] := by
  rw [sectionsSpec]

theorem sectionsSpec_cons (ord : Nat) (line : List Char) (rest : List (List Char)) :
    sectionsSpec ord (line :: rest)
      = if isHeadingLine line then
          { title := pyStrip (line.drop 3)
            content := pyStrip (joinLines (rest.takeWhile (fun l => !isHeadingLine l)))
            order := ord }
            :: sectionsSpec (ord + 1) (rest.dropWhile (fun l => !isHeadingLine l))
        else sectionsSpec ord rest := by
  rw [sectionsSpec]

theorem parseLoop_some (ls : List (List Char)) :
    ∀ (t : List Char) (o : Nat) (buf : List (List Char)) (ord : Nat),
      parseLoop ls (some (t, o)) buf ord
        = finishSection t o (buf ++ ls.takeWhile (fun l => !isHeadingLine l))
            :: sectionsSpec ord (ls.dropWhile (fun l => !isHeadingLine l)) := by
  induction ls with
  | nil => intro t o buf ord; simp [parseLoop, sectionsSpec_nil]
  | cons line rest ih =>
    intro t o buf ord
    by_cases hl : isHeadingLine line
    · have htake : (line :: rest).takeWhile (fun l => !isHeadingLine l) = [] := by
        simp [List.takeWhile_cons, hl]
      have hdrop : (line :: rest).dropWhile (fun l => !isHeadingLine l) = line :: rest := by
        simp [List.dropWhile_cons, hl]
      rw [htake, hdrop, List.append_nil, sectionsSpec_cons, if_pos hl]
      simp only [parseLoop, if_pos hl]
      rw [ih]
      simp [finishSection]
    · have htake : (line :: rest).takeWhile (fun l => !isHeadingLine l)
          = line :: rest.takeWhile (fun l => !isHeadingLine l) := by
        simp [List.takeWhile_cons, hl]
      have hdrop : (line :: rest).dropWhile (fun l => !isHeadingLine l)
          = rest.dropWhile (fun l => !isHeadingLine l) := by
        simp [List.dropWhile_cons, hl]
      rw [htake, hdrop]
      simp only [parseLoop, if_neg hl]
      rw [ih]
      simp [List.append_assoc]

theorem parseLoop_none (ls : List (List Char)) :
    ∀ (buf : List (List Char)) (ord : Nat),
      parseLoop ls none buf ord = sectionsSpec ord ls := by
  induction ls with
  | nil => intro buf ord; simp [parseLoop, sectionsSpec_nil]
  | cons line rest ih =>
    intro buf ord
    by_cases hl : isHeadingLine line
    · simp only [parseLoop, if_pos hl]
      rw [parseLoop_some, sectionsSpec_cons, if_pos hl]
      simp [finishSection]
    · simp only [parseLoop, if_neg hl]
      rw [ih, sectionsSpec_cons, if_neg hl]

theorem parse_markdown_sections_eq (md : List Char) :
    parse_markdown_sections md = sectionsSpec 0 (splitLines md) :=
  parseLoop_none (splitLines md) [] 0

theorem filter_dropWhile_not {α : Type} (p : α → Bool) (l : List α) :
    (l.dropWhile (fun a => !p a)).filter p = l.filter p := by
  induction l with
  | nil => rfl
  | cons a t ih =>
    by_cases h : p a
    · simp [List.dropWhile_cons, List.filter_cons, h]
    · simp [List.dropWhile_cons, List.filter_cons, h, ih]

theorem sectionsSpec_length (ord : Nat) (ls : List (List Char)) :
    (sectionsSpec ord ls).length = (ls.filter isHeadingLine).length := by
  induction ord, ls using sectionsSpec.induct with
  | case1 ord => simp [sectionsSpec_nil]
  | case2 ord line rest hl ih =>
    rw [sectionsSpec_cons]
    simp only [if_pos hl, List.length_cons, ih, filter_dropWhile_not]
    simp [List.filter_cons, hl]
  | case3 ord line rest hl ih =>
    rw [sectionsSpec_cons]
    simp only [if_neg hl, ih]
    simp [List.filter_cons, hl]

theorem sectionsSpec_orders (ord : Nat) (ls : List (List Char)) :
    (sectionsSpec ord ls).map DocSection.order
      = List.range' ord (sectionsSpec ord ls).length := by
  induction ord, ls using sectionsSpec.induct with
  | case1 ord => simp [sectionsSpec_nil]
  | case2 ord line rest hl ih =>
    rw [sectionsSpec_cons]
    simp only [if_pos hl, List.map_cons, List.length_cons, List.range'_succ, ih]
  | case3 ord line rest hl ih =>
    rw [sectionsSpec_cons]
    simp only [if_neg hl, ih]

/-- Counterexample to claim C5 as stated: a heading line `"## A "` yields the
stripped title `"A"`, not the raw rest of the line `"A "`. -/
theorem claim_C5_counterexample :
    (parse_markdown_sections (String.data ("## A \nbody"))).map DocSection.title
        = [String.data ("A")]
    ∧ String.data ("A") ≠ String.data ("A ") := by
  decide

/-- Claim C5 (amended): the parser splits purely on lines beginning with
`"## "` — formalised by its equality with `sectionsSpec`, the block-structured
restatement of the amended rule (title = rest of the heading line stripped of
surrounding whitespace, content = text until the next heading line or the end
stripped of surrounding whitespace, text before the first heading discarded) —
the number of sections equals the number of heading lines (zero headings give
zero sections), the i-th section has order i, and the concrete example
`"intro\n## A\nbody1\n## B\nbody2"` yields sections `("A", "body1", 0)` and
`("B", "body2", 1)`. -/
theorem claim_C5_section_split :
    (∀ md : List Char, parse_markdown_sections md = sectionsSpec 0 (splitLines md))
    ∧ (∀ md : List Char, (parse_markdown_sections md).length
        = ((splitLines md).filter isHeadingLine).length)
    ∧ (∀ md : List Char, (parse_markdown_sections md).map DocSection.order
        = List.range (parse_markdown_sections md).length)
    ∧ parse_markdown_sections (String.data ("intro\n## A\nbody1\n## B\nbody2"))
        = [{ title := String.data ("A"), content := String.data ("body1"), order := 0 },
           { title := String.data ("B"), content := String.data ("body2"), order := 1 }] := by
  refine ⟨parse_markdown_sections_eq, ?_, ?_, by decide⟩
  · intro md
    rw [parse_markdown_sections_eq]
    exact sectionsSpec_length 0 (splitLines md)
  · intro md
    rw [parse_markdown_sections_eq, sectionsSpec_orders, List.range_eq_range']

/-! ### Facts about `pyStrip`, `splitLines` and `joinLines` needed for C6 -/

theorem dropWhile_idem {α : Type} (p : α → Bool) (l : List α) :
    (l.dropWhile p).dropWhile p = l.dropWhile p := by
  induction l with
  | nil => rfl
  | cons a t ih =>
    by_cases h : p a
    · simp [List.dropWhile_cons, h, ih]
    · simp [List.dropWhile_cons, h]

theorem exists_dropWhile_eq_drop {α : Type} (p : α → Bool) (l : List α) :
    ∃ n, l.dropWhile p = l.drop n := by
  induction l with
  | nil => exact ⟨0, rfl⟩
  | cons a t ih =>
    by_cases h : p a
    · obtain ⟨n, hn⟩ := ih
      exact ⟨n + 1, by simp [List.dropWhile_cons, h, hn]⟩
    · exact ⟨0, by simp [List.dropWhile_cons, h]⟩

/-- Stripping trailing characters of `y` leaves an initial segment of `y`. -/
theorem exists_rstrip_take (p : Char → Bool) (y : List Char) :
    ∃ m, (y.reverse.dropWhile p).reverse = y.take m := by
  obtain ⟨n, hn⟩ := exists_dropWhile_eq_drop p y.reverse
  refine ⟨y.length - n, ?_⟩
  rw [hn, List.reverse_drop]
  simp

theorem dropWhile_head_false {α : Type} (p : α → Bool) (a : α) (t : List α)
    (h : (a :: t).dropWhile p = a :: t) : p a = false := by
  by_cases hp : p a
  · exfalso
    have hlen := congrArg List.length h
    rw [List.dropWhile_cons] at hlen
    simp only [hp, if_true, List.length_cons] at hlen
    have hle := (List.dropWhile_sublist (l := t) p).length_le
    omega
  · simpa using hp

theorem dropWhile_take_fix {α : Type} (p : α → Bool) (y : List α) (m : Nat)
    (hy : y.dropWhile p = y) : (y.take m).dropWhile p = y.take m := by
  cases y with
  | nil => simp
  | cons a t =>
    cases m with
    | zero => simp
    | succ k =>
      have ha : p a = false := dropWhile_head_false p a t hy
      simp [List.take_succ_cons, List.dropWhile_cons, ha]

theorem pyStrip_dropWhile_fix (s : List Char) :
    (pyStrip s).dropWhile pyIsSpace = pyStrip s := by
  unfold pyStrip
  obtain ⟨m, hm⟩ := exists_rstrip_take pyIsSpace (s.dropWhile pyIsSpace)
  rw [hm]
  exact dropWhile_take_fix pyIsSpace _ m (dropWhile_idem pyIsSpace s)

theorem pyStrip_reverse_dropWhile_fix (s : List Char) :
    (pyStrip s).reverse.dropWhile pyIsSpace = (pyStrip s).reverse := by
  unfold pyStrip
  rw [List.reverse_reverse]
  exact dropWhile_idem pyIsSpace _

theorem pyStrip_of_fixes (y : List Char) (h1 : y.dropWhile pyIsSpace = y)
    (h2 : y.reverse.dropWhile pyIsSpace = y.reverse) : pyStrip y = y := by
  unfold pyStrip
  rw [h1, h2, List.reverse_reverse]

theorem pyStrip_idem (s : List Char) : pyStrip (pyStrip s) = pyStrip s :=
  pyStrip_of_fixes _ (pyStrip_dropWhile_fix s) (pyStrip_reverse_dropWhile_fix s)

theorem mem_pyStrip (s : List Char) (c : Char) (h : c ∈ pyStrip s) : c ∈ s := by
  unfold pyStrip at h
  have h1 : c ∈ (s.dropWhile pyIsSpace).reverse :=
    List.dropWhile_subset pyIsSpace (List.mem_reverse.mp h)
  exact List.dropWhile_subset pyIsSpace (List.mem_reverse.mp h1)

theorem splitLines_ne_nil (s : List Char) : splitLines s ≠ [] := by
  cases s with
  | nil => simp [splitLines]
  | cons c cs =>
    by_cases h : c = '\n'
    · simp [splitLines, h]
    · simp only [splitLines, if_neg h]
      cases hs : splitLines cs <;> simp

theorem joinLines_cons_head (c : Char) (m : List Char) (ms : List (List Char)) :
    joinLines ((c :: m) :: ms) = c :: joinLines (m :: ms) := by
  cases ms <;> simp [joinLines]

theorem joinLines_cons_cons (l m : List Char) (ms : List (List Char)) :
    joinLines (l :: m :: ms) = l ++ '\n' :: joinLines (m :: ms) := by
  simp [joinLines]

theorem splitLines_newline (cs : List Char) : splitLines ('\n' :: cs) = [] :: splitLines cs := by
  simp [splitLines]

theorem splitLines_cons_ne (c : Char) (cs : List Char) (h : c ≠ '\n') :
    splitLines (c :: cs)
      = match splitLines cs with
        | [] => [[c]]
        | l :: ls => (c :: l) :: ls := by
  simp [splitLines, h]

theorem joinLines_splitLines (s : List Char) : joinLines (splitLines s) = s := by
  induction s with
  | nil => rfl
  | cons c cs ih =>
    by_cases h : c = '\n'
    · subst h
      cases hs : splitLines cs with
      | nil => exact absurd hs (splitLines_ne_nil cs)
      | cons m ms =>
        rw [splitLines_newline, hs, joinLines_cons_cons, List.nil_append]
        rw [hs] at ih
        rw [ih]
    · cases hs : splitLines cs with
      | nil => exact absurd hs (splitLines_ne_nil cs)
      | cons m ms =>
        rw [splitLines_cons_ne c cs h, hs]
        rw [joinLines_cons_head]
        rw [hs] at ih
        rw [ih]

theorem splitLines_append (a b : List Char) (ha : '\n' ∉ a) :
    splitLines (a ++ '\n' :: b) = a :: splitLines b := by
  induction a with
  | nil => simp [splitLines_newline]
  | cons c a' ih =>
    have hc : c ≠ '\n' := fun h => ha (by rw [h]; exact List.mem_cons_self _ _)
    have ha' : '\n' ∉ a' := fun h => ha (List.mem_cons_of_mem c h)
    rw [List.cons_append, splitLines_cons_ne c _ hc, ih ha']

theorem noNewline_splitLines (s : List Char) : ∀ l ∈ splitLines s, '\n' ∉ l := by
  induction s with
  | nil =>
    intro l hl
    simp only [splitLines, List.mem_singleton] at hl
    subst hl
    simp
  | cons c cs ih =>
    intro l hl
    by_cases h : c = '\n'
    · subst h
      rw [splitLines_newline] at hl
      rcases List.mem_cons.mp hl with rfl | hl'
      · simp
      · exact ih l hl'
    · cases hs : splitLines cs with
      | nil => exact absurd hs (splitLines_ne_nil cs)
      | cons m ms =>
        rw [splitLines_cons_ne c cs h, hs] at hl
        rcases List.mem_cons.mp hl with rfl | hl'
        · intro hmem
          rcases List.mem_cons.mp hmem with heq | hmem'
          · exact h heq.symm
          · exact ih m (by rw [hs]; exact List.mem_cons_self m ms) hmem'
        · exact ih l (by rw [hs]; exact List.mem_cons_of_mem m hl')

theorem takeWhile_all {α : Type} (p : α → Bool) (l : List α) (h : ∀ a ∈ l, p a = true) :
    l.takeWhile p = l := by
  induction l with
  | nil => rfl
  | cons a t ih =>
    rw [List.takeWhile_cons, h a (List.mem_cons_self a t), if_pos rfl]
    rw [ih (fun b hb => h b (List.mem_cons_of_mem a hb))]

theorem dropWhile_all {α : Type} (p : α → Bool) (l : List α) (h : ∀ a ∈ l, p a = true) :
    l.dropWhile p = [] := by
  induction l with
  | nil => rfl
  | cons a t ih =>
    rw [List.dropWhile_cons]
    simp only [h a (List.mem_cons_self a t), if_true]
    exact ih (fun b hb => h b (List.mem_cons_of_mem a hb))

/-- Every section produced by the splitting rule has a title stripped from a
heading line of the input and a content stripped from a joined line block. -/
theorem mem_sectionsSpec (ord : Nat) (ls : List (List Char)) (s : DocSection)
    (hs : s ∈ sectionsSpec ord ls) :
    (∃ line, line ∈ ls ∧ isHeadingLine line = true ∧ s.title = pyStrip (line.drop 3))
    ∧ ∃ buf : List (List Char), s.content = pyStrip (joinLines buf) := by
  induction ord, ls using sectionsSpec.induct with
  | case1 ord => rw [sectionsSpec_nil] at hs; exact absurd hs (List.not_mem_nil s)
  | case2 ord line rest hl ih =>
    rw [sectionsSpec_cons, if_pos hl] at hs
    rcases List.mem_cons.mp hs with rfl | hs'
    · exact ⟨⟨line, List.mem_cons_self line rest, hl, rfl⟩, ⟨_, rfl⟩⟩
    · obtain ⟨⟨l₀, hl₀, hhead, hteq⟩, hcont⟩ := ih hs'
      exact ⟨⟨l₀, List.mem_cons_of_mem line (List.dropWhile_subset _ hl₀), hhead, hteq⟩, hcont⟩
  | case3 ord line rest hl ih =>
    rw [sectionsSpec_cons, if_neg hl] at hs
    obtain ⟨⟨l₀, hl₀, hhead, hteq⟩, hcont⟩ := ih hs
    exact ⟨⟨l₀, List.mem_cons_of_mem line hl₀, hhead, hteq⟩, hcont⟩

/-- Counterexample to claim C6 as stated: in `"## A\n ## B"` the content
line `" ## B"` is not a heading (the leading space defeats
`startswith("## ")`), but closing the section strips it to `"## B"`;
re-parsing `"## " + title + "\n" + content` then finds two heading lines and
yields two sections, not one. -/
theorem claim_C6_counterexample :
    parse_markdown_sections (String.data ("## A\n ## B"))
        = [{ title := String.data ("A"), content := String.data ("## B"), order := 0 }]
    ∧ (parse_markdown_sections
        (String.data ("## ") ++ String.data ("A") ++ '\n' :: String.data ("## B"))).length
        ≠ 1 := by
  decide

/-- Claim C6 (amended): for every section `s` produced by the parser whose
content, split into lines, contains no line beginning with `"## "`,
re-parsing `"## " + s.title + "\n" + s.content` yields exactly one section
with the same title and content and order 0.  (The proviso is forced by the
counterexample: `str.strip()` applied to the joined content can expose a
leading `"## "` that was hidden behind whitespace in the original input; no
other line of a parsed content can start with `"## "`.) -/
theorem claim_C6_reparse_single (md : List Char) (s : DocSection)
    (hs : s ∈ parse_markdown_sections md)
    (hc : ∀ l ∈ splitLines s.content, isHeadingLine l = false) :
    parse_markdown_sections (String.data ("## ") ++ s.title ++ '\n' :: s.content)
      = [{ title := s.title, content := s.content, order := 0 }] := by
  rw [parse_markdown_sections_eq] at hs ⊢
  obtain ⟨⟨line, hline, hhead, hteq⟩, ⟨buf, hceq⟩⟩ := mem_sectionsSpec 0 (splitLines md) s hs
  have htfix : pyStrip s.title = s.title := by rw [hteq, pyStrip_idem]
  have hcfix : pyStrip s.content = s.content := by rw [hceq, pyStrip_idem]
  have htnl : '\n' ∉ s.title := by
    intro hmem
    rw [hteq] at hmem
    exact (noNewline_splitLines md line hline)
      (List.drop_subset 3 line (mem_pyStrip _ _ hmem))
  have hA : String.data ("## ") ++ s.title ++ '\n' :: s.content
      = ('#' :: '#' :: ' ' :: s.title) ++ '\n' :: s.content := by
    simp
  have hnlA : '\n' ∉ '#' :: '#' :: ' ' :: s.title := by
    intro hmem
    rcases List.mem_cons.mp hmem with heq | hmem
    · exact absurd heq (by decide)
    rcases List.mem_cons.mp hmem with heq | hmem
    · exact absurd heq (by decide)
    rcases List.mem_cons.mp hmem with heq | hmem
    · exact absurd heq (by decide)
    · exact htnl hmem
  rw [hA, splitLines_append _ _ hnlA]
  have hhA : isHeadingLine ('#' :: '#' :: ' ' :: s.title) = true := rfl
  rw [sectionsSpec_cons, if_pos hhA]
  have hdrop3 : ('#' :: '#' :: ' ' :: s.title).drop 3 = s.title := rfl
  have hall : ∀ l ∈ splitLines s.content, (fun l => !isHeadingLine l) l = true := by
    intro l hl
    simp [hc l hl]
  rw [hdrop3, htfix, takeWhile_all _ _ hall, dropWhile_all _ _ hall,
    joinLines_splitLines, hcfix, sectionsSpec_nil]

theorem claim_C6_reparse_single_witness :
    ({ title := String.data ("A"), content := String.data ("body"), order := 0 } : DocSection)
        ∈ parse_markdown_sections (String.data ("## A\nbody"))
    ∧ parse_markdown_sections
        (String.data ("## ") ++ String.data ("A") ++ '\n' :: String.data ("body"))
      = [{ title := String.data ("A"), content := String.data ("body"), order := 0 }] :=
  ⟨by decide,
   claim_C6_reparse_single (String.data ("## A\nbody"))
     { title := String.data ("A"), content := String.data ("body"), order := 0 }
     (by decide) (by decide)⟩

/-! ## Filename slug (claim C7)

`DocGenerator._save_documentation` (doc_generator.py, lines 372-373):
`safe_name = "".join(c if c.isalnum() or c in "._- " else "_" for c in
doc.figma_file_name)` followed by `safe_name.replace(" ", "_").lower()`.
`Char.isAlphanum` and `Char.toLower` are exactly the ASCII behaviour of
`str.isalnum` / `str.lower`. -/

/-- One character of the keep pass: `c if c.isalnum() or c in "._- " else "_"`. -/
def keepSafeChar (c : Char) : Char :=
  if c.isAlphanum || c == '.' || c == '_' || c == '-' || c == ' ' then c else '_'

/-- Python `.replace(" ", "_")`, character-wise. -/
def spaceToUnderscore (c : Char) : Char :=
  if c == ' ' then '_' else c

/-- The `safe_name` slug of `_save_documentation`: keep pass, then space
replacement, then `.lower()`. -/
def safe_name (figma_file_name : List Char) : List Char :=
  ((figma_file_name.map keepSafeChar).map spaceToUnderscore).map Char.toLower

/-- One slug character as claim C7 words it: alphanumerics and `._-` are
kept, spaces and all other characters become `_`, and the result is
lowercased. -/
def slugCharSpec (c : Char) : Char :=
  Char.toLower (if c.isAlphanum || c == '.' || c == '_' || c == '-' then c else '_')

def slugSpec (name : List Char) : List Char := name.map slugCharSpec

theorem uint32_le_iff_toNat_le (a b : UInt32) : a ≤ b ↔ a.toNat ≤ b.toNat := by
  rw [UInt32.le_def, BitVec.le_def]
  exact Iff.rfl

theorem toNat_ofNat_of_valid (n : Nat) (h : n < 55296) : (Char.ofNat n).toNat = n := by
  have hv : n.isValidChar := Or.inl h
  unfold Char.ofNat
  rw [dif_pos hv]
  rfl

theorem isLower_iff (c : Char) : c.isLower = true ↔ 97 ≤ c.toNat ∧ c.toNat ≤ 122 := by
  simp only [Char.isLower, Bool.and_eq_true, decide_eq_true_eq, ge_iff_le]
  rw [uint32_le_iff_toNat_le, uint32_le_iff_toNat_le]
  exact Iff.rfl

theorem toLower_eq_self (c : Char) (h : ¬(65 ≤ c.toNat ∧ c.toNat ≤ 90)) :
    Char.toLower c = c := by
  unfold Char.toLower
  exact if_neg h

theorem toLower_toNat_of_upper (c : Char) (h1 : 65 ≤ c.toNat) (h2 : c.toNat ≤ 90) :
    (Char.toLower c).toNat = c.toNat + 32 := by
  unfold Char.toLower
  rw [if_pos ⟨h1, h2⟩]
  exact toNat_ofNat_of_valid _ (by omega)

/-- The three slug passes compose, per character, to the claim's single-pass
description. -/
theorem slugChar_eq (c : Char) :
    Char.toLower (spaceToUnderscore (keepSafeChar c)) = slugCharSpec c := by
  by_cases hsp : c = ' '
  · subst hsp
    decide
  · have hb : (c == ' ') = false := by simp [hsp]
    by_cases h4 : (c.isAlphanum || c == '.' || c == '_' || c == '-') = true
    · simp [keepSafeChar, spaceToUnderscore, slugCharSpec, h4, hb]
    · have h4' : (c.isAlphanum || c == '.' || c == '_' || c == '-') = false := by
        simpa using h4
      simp [keepSafeChar, spaceToUnderscore, slugCharSpec, h4', hb]

theorem safe_name_eq_slugSpec (name : List Char) : safe_name name = slugSpec name := by
  unfold safe_name slugSpec
  rw [List.map_map, List.map_map]
  exact List.map_congr_left (fun c _ => slugChar_eq c)

theorem slugCharSpec_fix (c : Char) : slugCharSpec (slugCharSpec c) = slugCharSpec c := by
  by_cases h4 : (c.isAlphanum || c == '.' || c == '_' || c == '-') = true
  · have hcs : slugCharSpec c = Char.toLower c := by simp [slugCharSpec, h4]
    by_cases hup : 65 ≤ c.toNat ∧ c.toNat ≤ 90
    · have hout : (Char.toLower c).toNat = c.toNat + 32 :=
        toLower_toNat_of_upper c hup.1 hup.2
      have hlow : (Char.toLower c).isLower = true :=
        (isLower_iff _).mpr ⟨by omega, by omega⟩
      have halnum : (Char.toLower c).isAlphanum = true := by
        simp [Char.isAlphanum, Char.isAlpha, hlow]
      have hfix : Char.toLower (Char.toLower c) = Char.toLower c :=
        toLower_eq_self _ (by omega)
      rw [hcs]
      simp [slugCharSpec, halnum, hfix]
    · have hc0 : slugCharSpec c = c := by
        rw [hcs]
        exact toLower_eq_self c hup
      rw [hc0]
      exact hc0
  · have h4' : (c.isAlphanum || c == '.' || c == '_' || c == '-') = false := by
      simpa using h4
    have hcs : slugCharSpec c = '_' := by
      simp [slugCharSpec, h4']
    rw [hcs]
    decide

/-- Claim C7: the slug is a pure function of the display name computing, per
character, exactly the claimed keep/underscore/lowercase rule (so the same
input always yields the same slug), and the derivation is idempotent. -/
theorem claim_C7_slug (name : List Char) :
    safe_name name = slugSpec name
    ∧ safe_name (safe_name name) = safe_name name := by
  refine ⟨safe_name_eq_slugSpec name, ?_⟩
  rw [safe_name_eq_slugSpec, safe_name_eq_slugSpec]
  unfold slugSpec
  rw [List.map_map]
  exact List.map_congr_left (fun c _ => slugCharSpec_fix c)

/-! ## Artifact persistence (claim C10)

`DocGenerator._save_documentation` (doc_generator.py, lines 359-406) writes,
under the slug, `markdown/{slug}.md` when `DocFormat.MARKDOWN` is requested,
`html/{slug}.html` when `DocFormat.HTML` is requested, and always
`markdown/{slug}_meta.json`.  The model records the sequence of
`write_text` calls as `(path, content)` pairs; the HTML conversion and the
JSON serialisation of the metadata are opaque content parameters. -/

/-- Model of `DocFormat` (doc_models.py, lines 16-19). -/
inductive DocFormat where
  | markdown
  | html
deriving DecidableEq, Repr

/-- The `write_text` trace of `_save_documentation`. -/
def _save_documentation (figma_file_name markdown_content html_content meta_content : List Char)
    (formats : List DocFormat) : List (List Char × List Char) :=
  let sn := safe_name figma_file_name
  (if DocFormat.markdown ∈ formats then
    [(String.data ("markdown/") ++ sn ++ String.data (".md"), markdown_content)]
  else [])
  ++ (if DocFormat.html ∈ formats then
    [(String.data ("html/") ++ sn ++ String.data (".html"), html_content)]
  else [])
  ++ [(String.data ("markdown/") ++ sn ++ String.data ("_meta.json"), meta_content)]

theorem md_path_ne_html_path (sn : List Char) :
    String.data ("markdown/") ++ sn ++ String.data (".md")
      ≠ String.data ("html/") ++ sn ++ String.data (".html") := by
  intro h
  have hlen := congrArg List.length h
  simp only [List.length_append, List.length_cons, List.length_nil] at hlen
  omega

theorem md_path_ne_meta_path (sn : List Char) :
    String.data ("markdown/") ++ sn ++ String.data (".md")
      ≠ String.data ("markdown/") ++ sn ++ String.data ("_meta.json") := by
  intro h
  have hlen := congrArg List.length h
  simp only [List.length_append, List.length_cons, List.length_nil] at hlen
  omega

theorem html_path_ne_meta_path (sn : List Char) :
    String.data ("html/") ++ sn ++ String.data (".html")
      ≠ String.data ("markdown/") ++ sn ++ String.data ("_meta.json") := by
  intro h
  have hlen := congrArg List.length h
  simp only [List.length_append, List.length_cons, List.length_nil] at hlen
  omega

/-- Claim C10: whatever list of output formats is requested, the
`{slug}_meta.json` file is always written; `{slug}.md` is written iff the
markdown format is requested, and `{slug}.html` iff the HTML format is
requested. -/
theorem claim_C10_meta_always_written
    (figma_file_name markdown_content html_content meta_content : List Char)
    (formats : List DocFormat) :
    (String.data ("markdown/") ++ safe_name figma_file_name ++ String.data ("_meta.json"))
        ∈ (_save_documentation figma_file_name markdown_content html_content meta_content
            formats).map Prod.fst
    ∧ ((String.data ("markdown/") ++ safe_name figma_file_name ++ String.data (".md"))
        ∈ (_save_documentation figma_file_name markdown_content html_content meta_content
            formats).map Prod.fst
       ↔ DocFormat.markdown ∈ formats)
    ∧ ((String.data ("html/") ++ safe_name figma_file_name ++ String.data (".html"))
        ∈ (_save_documentation figma_file_name markdown_content html_content meta_content
            formats).map Prod.fst
       ↔ DocFormat.html ∈ formats) := by
  unfold _save_documentation
  have h1 := md_path_ne_html_path (safe_name figma_file_name)
  have h2 := md_path_ne_meta_path (safe_name figma_file_name)
  have h3 := html_path_ne_meta_path (safe_name figma_file_name)
  by_cases hm : DocFormat.markdown ∈ formats <;>
    by_cases hh : DocFormat.html ∈ formats <;>
      simp [hm, hh, h1, h2, h3, Ne.symm h1, Ne.symm h2, Ne.symm h3]

end FigmaDocs
